import Mathlib

/-!
Verification of the EASIX-DRI landmark prediction engine (`src/dynamicModel.ts`).

The source is embedded shallowly:
* JavaScript numbers are embedded as rationals (`ℚ`); the biomarker value field
  is `Option ℚ`, where `none` embeds the non-finite doubles (`NaN`, `±Infinity`)
  rejected by the `!isNaN && isFinite` filter (all finite values are `some q`).
* The `exp`-based survival outputs are real-valued (`Real.exp`).
* Matrices (`number[][]`) are embedded as functions `Fin m → Fin n → ℚ`;
  in-place row updates of the source's Gauss-Jordan loop become pointwise
  function transformations.
* Thrown `Error`s become an `Except PredError` result, with the error taxonomy
  of the specification (`InsufficientObservations`, `SingularMatrix`,
  `InvalidConfiguration`).
* The optional `mean`/`sd` fields of `TimeStandardization` are embedded as
  rationals, with a missing field embedded as `0`: the source's JavaScript
  falsy test `if (!mean || !sd) throw` rejects exactly missing-or-zero values,
  which the embedding models as the test `mean = 0 ∨ sd = 0`.  Since this test
  does not depend on the day being standardized, and is evaluated at least once
  (the caller guarantees at least two observations), it is hoisted out of the
  per-observation map.

The repository contains two variants of `predictDynamicEASIX`; both are
embedded: `predictDynamicEASIX` is the exact-GLS BLUP variant and
`predictDynamicEASIXOLS` is the OLS-plus-independent-shrinkage variant.
-/

set_option maxRecDepth 100000

namespace EasixDri

attribute [local semireducible] Rat.mul Rat.inv Rat.add Rat.sub Rat.ofScientific

/-- Error taxonomy of the prediction engine (spec §7): the thrown `Error`s of
`predictDynamicEASIX` (insufficient observations), `matrixInverse` (singular
matrix) and `standardizeTime` (missing time-standardization configuration). -/
inductive PredError where
  | insufficientObservations
  | singularMatrix
  | invalidConfiguration
  deriving DecidableEq, Repr

/-- `LMEFixedEffects` of the source: intercept, time slope and DRI coefficient. -/
structure LMEFixedEffects where
  intercept : ℚ
  time_slope : ℚ
  dri_coefficient : ℚ
  deriving DecidableEq, Repr

/-- `LMERandomEffects` of the source: the entries of the 2×2 random-effects
covariance matrix `G` (the `correlation` field is carried but never read by the
prediction code). -/
structure LMERandomEffects where
  variance_intercept : ℚ
  variance_slope : ℚ
  covariance_intercept_slope : ℚ
  correlation : ℚ
  deriving DecidableEq, Repr

/-- `TimeStandardization` of the source; a missing optional `mean`/`sd` is
embedded as `0` (both are rejected by the source's falsy check). -/
structure TimeStandardization where
  mean : ℚ
  sd : ℚ
  deriving DecidableEq, Repr

/-- `CoxCoefficients` of the source. -/
structure CoxCoefficients where
  dri : ℚ
  log2easix_at_landmark : ℚ
  slope_at_landmark : ℚ
  deriving DecidableEq, Repr

/-- The fields of the source's `ModelParameters` that the prediction engine
reads.  `landmark_time_days` and `prediction_horizon_days` are the `metadata`
fields read at the top of `predictDynamicEASIX`; the baseline hazard table is a
list of `(time, cumulative_hazard)` pairs (`BaselineHazardPoint`). -/
structure ModelParameters where
  landmark_time_days : ℚ
  prediction_horizon_days : ℚ
  fixed_effects : LMEFixedEffects
  random_effects : LMERandomEffects
  residual_variance : ℚ
  time_standardization : TimeStandardization
  cox_coefficients : CoxCoefficients
  baseline_hazard : List (ℚ × ℚ)
  deriving DecidableEq, Repr

/-- `PatientObservation` of the source.  `log2easix = none` embeds a non-finite
double (`NaN` or `±Infinity`); `some q` embeds the finite value `q`. -/
structure PatientObservation where
  day : ℚ
  log2easix : Option ℚ
  deriving DecidableEq, Repr

/-- The rational core of a `PredictionResult`: everything the source computes
before the `Math.exp` calls of steps 11-12 (landmark value, landmark slope,
Cox linear predictor, and the interpolated baseline cumulative hazard of step
10). -/
structure PredictionCore where
  log2easix_at_landmark : ℚ
  slope_at_landmark : ℚ
  linear_predictor : ℚ
  baselineH0 : ℚ
  deriving DecidableEq, Repr

/-- `PredictionResult` of the source.  The three regression outputs are exact
rationals; the two survival outputs involve `Math.exp` and are real-valued. -/
structure PredictionResult where
  log2easix_at_landmark : ℚ
  slope_at_landmark : ℚ
  linear_predictor : ℚ
  survival_2yr : ℝ
  event_rate_2yr_percent : ℝ

instance {ε α : Type} [DecidableEq ε] [DecidableEq α] : DecidableEq (Except ε α) :=
  fun x y =>
    match x, y with
    | .ok a, .ok b => decidable_of_iff (a = b) (by simp)
    | .error a, .error b => decidable_of_iff (a = b) (by simp)
    | .ok _, .error _ => isFalse (by simp)
    | .error _, .ok _ => isFalse (by simp)

/-! ### Matrix toolkit

The source's dense matrices `number[][]` are embedded as functions
`Fin m → Fin n → ℚ` (row index first). -/

/-- `eye(n)` of the source: the n×n identity matrix. -/
def eye (n : ℕ) : Fin n → Fin n → ℚ :=
  fun i j => if i = j then 1 else 0

/-- `scalarMultiply` of the source. -/
def scalarMultiply {m n : ℕ} (c : ℚ) (A : Fin m → Fin n → ℚ) : Fin m → Fin n → ℚ :=
  fun i j => c * A i j

/-- `matrixAdd` of the source. -/
def matrixAdd {m n : ℕ} (A B : Fin m → Fin n → ℚ) : Fin m → Fin n → ℚ :=
  fun i j => A i j + B i j

/-- `transpose` of the source. -/
def transpose {m n : ℕ} (A : Fin m → Fin n → ℚ) : Fin n → Fin m → ℚ :=
  fun j i => A i j

/-- `matrixMultiply` of the source: `C i j = Σ_k A i k * B k j`. -/
def matrixMultiply {m n p : ℕ} (A : Fin m → Fin n → ℚ) (B : Fin n → Fin p → ℚ) :
    Fin m → Fin p → ℚ :=
  fun i j => ∑ k, A i k * B k j

/-- `matrixVectorMultiply` of the source. -/
def matrixVectorMultiply {m n : ℕ} (A : Fin m → Fin n → ℚ) (v : Fin n → ℚ) :
    Fin m → ℚ :=
  fun i => ∑ j, A i j * v j

/-! ### Gauss-Jordan inversion (`matrixInverse` of the source)

The source keeps one augmented n×2n array `[A | I]`; the embedding carries the
two halves as a pair `(L, R)` and applies every row operation to both halves,
exactly as the source's column loop does. -/

/-- The partial-pivoting search of `matrixInverse`: starting from `maxRow = col`,
scan the rows below `col` in order and move to any row whose entry in column
`col` is strictly larger in absolute value than the current maximum.  (The
source's running `maxVal` always equals `|L best col|`.) -/
def pivotSearch {n : ℕ} (L : Fin n → Fin n → ℚ) (col : Fin n) : Fin n :=
  (List.finRange n).foldl
    (fun best r => if col < r ∧ |L r col| > |L best col| then r else best) col

/-- The row swap of `matrixInverse` (`[aug[col], aug[maxRow]] = [aug[maxRow],
aug[col]]`), applied to one half of the augmented matrix. -/
def swapRows {n : ℕ} (M : Fin n → Fin n → ℚ) (i j : Fin n) : Fin n → Fin n → ℚ :=
  fun r c => M (Equiv.swap i j r) c

/-- The pivot-row scaling of `matrixInverse` (`aug[col][j] /= pivot`), applied
to one half of the augmented matrix. -/
def scaleRow {n : ℕ} (M : Fin n → Fin n → ℚ) (i : Fin n) (p : ℚ) :
    Fin n → Fin n → ℚ :=
  fun r c => if r = i then M r c / p else M r c

/-- The column elimination of `matrixInverse` (`aug[row][j] -= factor *
aug[col][j]` for every row other than the pivot row), applied to one half of
the augmented matrix; the factor of each row was read off before the updates. -/
def eliminate {n : ℕ} (M : Fin n → Fin n → ℚ) (factor : Fin n → ℚ) (col : Fin n) :
    Fin n → Fin n → ℚ :=
  fun r c => if r = col then M r c else M r c - factor r * M col c

/-- One iteration of the column loop of `matrixInverse`: pivot search, row
swap, singularity check against the fixed `1e-12` threshold, pivot-row scaling,
and elimination of column `col` from every other row (the elimination factor is
read from the left half, as in the source's augmented array). -/
def gaussStep {n : ℕ} (st : (Fin n → Fin n → ℚ) × (Fin n → Fin n → ℚ)) (col : Fin n) :
    Except PredError ((Fin n → Fin n → ℚ) × (Fin n → Fin n → ℚ)) :=
  let piv := pivotSearch st.1 col
  let L1 := swapRows st.1 col piv
  let R1 := swapRows st.2 col piv
  if |L1 col col| < (1e-12 : ℚ) then .error .singularMatrix
  else
    let p := L1 col col
    let L2 := scaleRow L1 col p
    let R2 := scaleRow R1 col p
    let L3 := eliminate L2 (fun r => L2 r col) col
    let R3 := eliminate R2 (fun r => L2 r col) col
    .ok (L3, R3)

/-- The column loop of `matrixInverse`, processing columns `k, k+1, …` while
the structural fuel lasts (`matrixInverse` supplies fuel `n`, so the loop runs
exactly over columns `0 … n-1`, as the source's `for` loop does). -/
def gaussAux {n : ℕ} (fuel k : ℕ) (st : (Fin n → Fin n → ℚ) × (Fin n → Fin n → ℚ)) :
    Except PredError ((Fin n → Fin n → ℚ) × (Fin n → Fin n → ℚ)) :=
  match fuel with
  | 0 => .ok st
  | fuel + 1 =>
    if h : k < n then do
      let st' ← gaussStep st ⟨k, h⟩
      gaussAux fuel (k + 1) st'
    else .ok st

/-- `matrixInverse` of the source: Gauss-Jordan elimination with partial
pivoting on the augmented matrix `[A | I]`, returning the right half. -/
def matrixInverse {n : ℕ} (A : Fin n → Fin n → ℚ) :
    Except PredError (Fin n → Fin n → ℚ) :=
  (gaussAux n 0 (A, eye n)).map (fun st => st.2)

/-! ### Utility functions -/

/-- The standardization formula of `standardizeTime`:
`(day - mean) / sd`.  The source's configuration check (`if (!mean || !sd)
throw`) is evaluated once, before this formula is applied, in
`predictDynamicEASIX`; see `standardizationInvalid`. -/
def standardizeTimeQ (p : ModelParameters) (day : ℚ) : ℚ :=
  (day - p.time_standardization.mean) / p.time_standardization.sd

/-- The configuration check of `standardizeTime`: the JavaScript falsy test
`!mean || !sd` holds exactly of a missing (embedded as `0`) or zero field. -/
def standardizationInvalid (p : ModelParameters) : Prop :=
  p.time_standardization.mean = 0 ∨ p.time_standardization.sd = 0

instance (p : ModelParameters) : Decidable (standardizationInvalid p) := by
  unfold standardizationInvalid; infer_instance

/-- The bracketing loop of `interpolateBaselineHazard` together with the final
linear interpolation: starting from the current point, advance while the next
point's time is still below the target, then interpolate between the two
bracketing points.  (The one-point and empty cases are unreachable behind the
clamping guards of `interpolateBaselineHazard`.) -/
def bracketLoop {K : Type} [LinearOrderedField K] : List (K × K) → K → K
  | [], _ => 0
  | [p], _ => p.2
  | p :: q :: rest, t =>
    if q.1 < t then bracketLoop (q :: rest) t
    else p.2 + (q.2 - p.2) * (t - p.1) / (q.1 - p.1)

/-- The last point of a nonempty table (`hazardPoints[hazardPoints.length - 1]`
of the source), written as structural recursion on the tail. -/
def lastPoint {K : Type} [LinearOrderedField K] : K × K → List (K × K) → K × K
  | x, [] => x
  | _, y :: l => lastPoint y l

/-- `interpolateBaselineHazard` of the source: clamp to the first hazard at or
before the first table time, clamp to the last hazard at or after the last
table time, and otherwise linearly interpolate between the two bracketing
points.  Defined over any linear ordered field so that the same definition is
run on `ℚ` by the prediction engine and analyzed on `ℝ`. -/
def interpolateBaselineHazard {K : Type} [LinearOrderedField K]
    (pts : List (K × K)) (t : K) : K :=
  match pts with
  | [] => 0
  | p0 :: rest =>
    let pLast := lastPoint p0 rest
    if t ≤ p0.1 then p0.2
    else if pLast.1 ≤ t then pLast.2
    else bracketLoop (p0 :: rest) t

/-! ### The exact-GLS prediction function -/

/-- The pre-landmark filter of `predictDynamicEASIX`: keep observations whose
day is at most the landmark time and whose value is finite. -/
def preLandmarkOf (p : ModelParameters) (observations : List PatientObservation) :
    List PatientObservation :=
  observations.filter
    (fun obs => decide (obs.day ≤ p.landmark_time_days) && obs.log2easix.isSome)

/-- The standardized observation times `tStd` (step before 1). -/
def tStdOf (p : ModelParameters) (l : List PatientObservation) :
    Fin l.length → ℚ :=
  fun i => standardizeTimeQ p (l.get i).day

/-- The fixed-effects residuals `y - Xβ` (steps 1-2): the observed value minus
`intercept + time_slope·t + dri_coefficient·dri`. -/
def residOf (p : ModelParameters) (l : List PatientObservation) (dri : ℚ) :
    Fin l.length → ℚ :=
  fun i =>
    ((l.get i).log2easix.getD 0) -
      (p.fixed_effects.intercept + p.fixed_effects.time_slope * tStdOf p l i +
        p.fixed_effects.dri_coefficient * dri)

/-- The random-effects design matrix `Z` (step 3): each row is `[1, t_i]`. -/
def Zof (p : ModelParameters) (l : List PatientObservation) :
    Fin l.length → Fin 2 → ℚ :=
  fun i j => if j = 0 then 1 else tStdOf p l i

/-- The random-effects covariance matrix `G` (step 4). -/
def Gof (p : ModelParameters) : Fin 2 → Fin 2 → ℚ :=
  fun i j =>
    if i = 0 then
      if j = 0 then p.random_effects.variance_intercept
      else p.random_effects.covariance_intercept_slope
    else
      if j = 0 then p.random_effects.covariance_intercept_slope
      else p.random_effects.variance_slope

/-- The marginal covariance matrix `V = Z·G·Zᵗ + σ²·I` (step 5). -/
def Vof (p : ModelParameters) (l : List PatientObservation) :
    Fin l.length → Fin l.length → ℚ :=
  matrixAdd (matrixMultiply (matrixMultiply (Zof p l) (Gof p)) (transpose (Zof p l)))
    (scalarMultiply p.residual_variance (eye l.length))

/-- The BLUP of the random effects, `b̂ = G·Zᵗ·V⁻¹·(y - Xβ)` (step 6), given
the computed inverse of `V`. -/
def bhatOf (p : ModelParameters) (l : List PatientObservation) (dri : ℚ)
    (Vinv : Fin l.length → Fin l.length → ℚ) : Fin 2 → ℚ :=
  matrixVectorMultiply
    (matrixMultiply (matrixMultiply (Gof p) (transpose (Zof p l))) Vinv)
    (residOf p l dri)

/-- Steps 7-10 of `predictDynamicEASIX`: landmark projection, landmark slope on
the standardized time scale, Cox linear predictor, and baseline hazard at the
prediction horizon. -/
def coreOf (p : ModelParameters) (l : List PatientObservation) (dri : ℚ)
    (Vinv : Fin l.length → Fin l.length → ℚ) : PredictionCore :=
  let b := bhatOf p l dri Vinv
  let b0 := b 0
  let b1 := b 1
  let landmarkStd := standardizeTimeQ p p.landmark_time_days
  let log2easix_at_landmark :=
    p.fixed_effects.intercept + p.fixed_effects.time_slope * landmarkStd +
      p.fixed_effects.dri_coefficient * dri + b0 + b1 * landmarkStd
  let slope_at_landmark := p.fixed_effects.time_slope + b1
  let linear_predictor :=
    p.cox_coefficients.dri * dri +
      p.cox_coefficients.log2easix_at_landmark * log2easix_at_landmark +
      p.cox_coefficients.slope_at_landmark * slope_at_landmark
  let H0 := interpolateBaselineHazard p.baseline_hazard p.prediction_horizon_days
  ⟨log2easix_at_landmark, slope_at_landmark, linear_predictor, H0⟩

/-- The rational core of the exact-GLS `predictDynamicEASIX`: filter, length
check, time-standardization configuration check, and the linear-algebra steps
1-10. -/
def predictCore (p : ModelParameters) (observations : List PatientObservation)
    (dri : ℚ) : Except PredError PredictionCore :=
  let pre := preLandmarkOf p observations
  if pre.length < 2 then .error .insufficientObservations
  else if standardizationInvalid p then .error .invalidConfiguration
  else (matrixInverse (Vof p pre)).map (coreOf p pre dri)

/-- Step 11 of `predictDynamicEASIX`: `S = exp(-H0 · exp(LP))`. -/
noncomputable def survivalProb (H0 lp : ℝ) : ℝ :=
  Real.exp (-H0 * Real.exp lp)

/-- Steps 11-12 of `predictDynamicEASIX`: assemble the `PredictionResult` from
the rational core. -/
noncomputable def resultOf (c : PredictionCore) : PredictionResult :=
  let survival_2yr := survivalProb (c.baselineH0 : ℝ) (c.linear_predictor : ℝ)
  { log2easix_at_landmark := c.log2easix_at_landmark
    slope_at_landmark := c.slope_at_landmark
    linear_predictor := c.linear_predictor
    survival_2yr := survival_2yr
    event_rate_2yr_percent := (1 - survival_2yr) * 100 }

/-- The exact-GLS variant of `predictDynamicEASIX`. -/
noncomputable def predictDynamicEASIX (p : ModelParameters)
    (observations : List PatientObservation) (dri : ℚ) :
    Except PredError PredictionResult :=
  (predictCore p observations dri).map resultOf

/-! ### The OLS-plus-shrinkage variant -/

/-- `simpleLinearRegression` of the second variant: ordinary least squares of
`y` on `x`, returning `(intercept, slope)`.  Its `n < 2` throw is unreachable
from the prediction function (which has already checked the length), so the
embedding is total. -/
def simpleLinearRegression (x y : List ℚ) : ℚ × ℚ :=
  let n : ℚ := x.length
  let sumX := x.sum
  let sumY := y.sum
  let sumXY := ((x.zip y).map (fun q => q.1 * q.2)).sum
  let sumX2 := (x.map (fun q => q * q)).sum
  let meanX := sumX / n
  let meanY := sumY / n
  let slope := (sumXY - n * meanX * meanY) / (sumX2 - n * meanX * meanX)
  let intercept := meanY - slope * meanX
  (intercept, slope)

/-- Steps 1-8 of the OLS-plus-shrinkage variant of `predictDynamicEASIX`:
fixed-effects residuals, OLS fit, independent empirical-Bayes shrinkage of the
intercept and slope, landmark projection, original-time-scale landmark slope,
Cox linear predictor, and baseline hazard at the horizon. -/
def coreOLSOf (p : ModelParameters) (l : List PatientObservation) (dri : ℚ) :
    PredictionCore :=
  let tStd := l.map (fun obs => standardizeTimeQ p obs.day)
  let residuals := l.map (fun obs =>
    (obs.log2easix.getD 0) -
      (p.fixed_effects.intercept +
        p.fixed_effects.time_slope * standardizeTimeQ p obs.day +
        p.fixed_effects.dri_coefficient * dri))
  let ols := simpleLinearRegression tStd residuals
  let b0_ols := ols.1
  let b1_ols := ols.2
  let n : ℚ := l.length
  let sigma2 := p.residual_variance
  let var_intercept := p.random_effects.variance_intercept
  let shrink_intercept := var_intercept / (var_intercept + sigma2 / n)
  let b0 := b0_ols * shrink_intercept
  let var_slope := p.random_effects.variance_slope
  let var_tStd := (tStd.map (fun t => t * t)).sum / n
  let shrink_slope := var_slope / (var_slope + sigma2 / (n * var_tStd))
  let b1 := b1_ols * shrink_slope
  let landmarkStd := standardizeTimeQ p p.landmark_time_days
  let log2easix_at_landmark :=
    p.fixed_effects.intercept + p.fixed_effects.time_slope * landmarkStd +
      p.fixed_effects.dri_coefficient * dri + b0 + b1 * landmarkStd
  let slope_at_landmark := (p.fixed_effects.time_slope + b1) / p.time_standardization.sd
  let linear_predictor :=
    p.cox_coefficients.dri * dri +
      p.cox_coefficients.log2easix_at_landmark * log2easix_at_landmark +
      p.cox_coefficients.slope_at_landmark * slope_at_landmark
  let H0 := interpolateBaselineHazard p.baseline_hazard p.prediction_horizon_days
  ⟨log2easix_at_landmark, slope_at_landmark, linear_predictor, H0⟩

/-- The rational core of the OLS-plus-shrinkage variant of
`predictDynamicEASIX`: same filter, length check and configuration check as
the exact variant, then the shrinkage computation (which has no further
failure exit). -/
def predictCoreOLS (p : ModelParameters) (observations : List PatientObservation)
    (dri : ℚ) : Except PredError PredictionCore :=
  let pre := preLandmarkOf p observations
  if pre.length < 2 then .error .insufficientObservations
  else if standardizationInvalid p then .error .invalidConfiguration
  else .ok (coreOLSOf p pre dri)

/-- The OLS-plus-independent-shrinkage variant of `predictDynamicEASIX`. -/
noncomputable def predictDynamicEASIXOLS (p : ModelParameters)
    (observations : List PatientObservation) (dri : ℚ) :
    Except PredError PredictionResult :=
  (predictCoreOLS p observations dri).map resultOf

/-! ### The worked-scenario fixture (spec §8) -/

/-- The fixture `ModelParameters` of the specification's worked scenario. -/
def fixtureParams : ModelParameters :=
  { landmark_time_days := 120
    prediction_horizon_days := 730
    fixed_effects := ⟨1, 1/2, 4/5⟩
    random_effects := ⟨1/25, 1/100, 0, 0⟩
    residual_variance := 9/100
    time_standardization := ⟨70, 30⟩
    cox_coefficients := ⟨1/2, 3/10, 2⟩
    baseline_hazard := [(0, 0), (365, 1/10), (730, 1/4)] }

/-- The fixture observation list of the worked scenario. -/
def fixtureObs : List PatientObservation :=
  [⟨60, some 1⟩, ⟨90, some (7/5)⟩]

/-- The fixture parameters with the residual variance set to zero (used to
exercise the singular-matrix path). -/
def fixtureParamsSigma0 : ModelParameters :=
  { fixtureParams with residual_variance := 0 }

/-- Two observations taken on the same day (hence with the same standardized
time). -/
def fixtureObsDup : List PatientObservation :=
  [⟨60, some 1⟩, ⟨60, some (7/5)⟩]

/-- The exact value of the rational prediction core on the worked scenario. -/
def fixtureCore : PredictionCore :=
  ⟨137/60, 781/1620, 34817/16200, 1/4⟩

/-- The Gauss-Jordan loop invariant: the left half of the augmented matrix is
the right half times the original matrix, and the first `k` columns of the
left half are identity columns. -/
def GaussInvariant {n : ℕ} (A : Fin n → Fin n → ℚ) (k : ℕ)
    (st : (Fin n → Fin n → ℚ) × (Fin n → Fin n → ℚ)) : Prop :=
  st.1 = matrixMultiply st.2 A ∧
    ∀ j : Fin n, (j : ℕ) < k → ∀ r, st.1 r j = if r = j then 1 else 0

/-- Extension of an index bijection along a `cons` (index 0 maps to index 0,
index `j+1` maps to `σ j + 1`); used to turn a list permutation into an index
bijection. -/
def finExtendEquiv {m k : ℕ} (σ : Fin m ≃ Fin k) : Fin (m + 1) ≃ Fin (k + 1) where
  toFun := fun i => match i with
    | ⟨0, _⟩ => ⟨0, Nat.succ_pos k⟩
    | ⟨j + 1, hj⟩ => ⟨(σ ⟨j, Nat.lt_of_succ_lt_succ hj⟩) + 1,
        Nat.succ_lt_succ (σ ⟨j, Nat.lt_of_succ_lt_succ hj⟩).isLt⟩
  invFun := fun i => match i with
    | ⟨0, _⟩ => ⟨0, Nat.succ_pos m⟩
    | ⟨j + 1, hj⟩ => ⟨(σ.symm ⟨j, Nat.lt_of_succ_lt_succ hj⟩) + 1,
        Nat.succ_lt_succ (σ.symm ⟨j, Nat.lt_of_succ_lt_succ hj⟩).isLt⟩
  left_inv := by
    intro i
    match i with
    | ⟨0, _⟩ => rfl
    | ⟨j + 1, hj⟩ => simp
  right_inv := by
    intro i
    match i with
    | ⟨0, _⟩ => rfl
    | ⟨j + 1, hj⟩ => simp

/-- The transposition of the first two indices of `Fin (n + 2)` (used for the
`swap` case when turning a list permutation into an index bijection). -/
def finSwap01 (n : ℕ) : Fin (n + 2) ≃ Fin (n + 2) where
  toFun := fun i => match i with
    | ⟨0, _⟩ => ⟨1, by omega⟩
    | ⟨1, _⟩ => ⟨0, by omega⟩
    | ⟨j + 2, hj⟩ => ⟨j + 2, hj⟩
  invFun := fun i => match i with
    | ⟨0, _⟩ => ⟨1, by omega⟩
    | ⟨1, _⟩ => ⟨0, by omega⟩
    | ⟨j + 2, hj⟩ => ⟨j + 2, hj⟩
  left_inv := by
    intro i
    match i with
    | ⟨0, _⟩ => rfl
    | ⟨1, _⟩ => rfl
    | ⟨j + 2, _⟩ => rfl
  right_inv := by
    intro i
    match i with
    | ⟨0, _⟩ => rfl
    | ⟨1, _⟩ => rfl
    | ⟨j + 2, _⟩ => rfl

/-- The permutation matrix of an index bijection. -/
def permMat {m k : ℕ} (σ : Fin m ≃ Fin k) : Fin m → Fin k → ℚ :=
  fun r c => if σ r = c then 1 else 0

/-! ## Basic inversion lemmas -/

theorem except_bind_ok {ε α β : Type} (a : α) (f : α → Except ε β) :
    (Except.ok a : Except ε α) >>= f = f a := rfl

theorem except_bind_error {ε α β : Type} (e : ε) (f : α → Except ε β) :
    (Except.error e : Except ε α) >>= f = Except.error e := rfl

theorem except_map_ok_inv {ε α β : Type} {f : α → β} {x : Except ε α} {b : β}
    (h : x.map f = .ok b) : ∃ a, x = .ok a ∧ b = f a := by
  cases x with
  | ok a => exact ⟨a, rfl, by simpa [Except.map] using h.symm⟩
  | error e => simp [Except.map] at h

theorem except_map_error_iff {ε α β : Type} {f : α → β} {x : Except ε α} {e : ε} :
    x.map f = .error e ↔ x = .error e := by
  cases x <;> simp [Except.map]

theorem gaussStep_error {n : ℕ} {st : (Fin n → Fin n → ℚ) × (Fin n → Fin n → ℚ)}
    {col : Fin n} {e : PredError} (h : gaussStep st col = .error e) :
    e = .singularMatrix := by
  simp only [gaussStep] at h
  split at h
  · exact (Except.error.inj h).symm
  · exact absurd h (by simp)

theorem gaussAux_error {n : ℕ} (fuel : ℕ) :
    ∀ {k : ℕ} {st : (Fin n → Fin n → ℚ) × (Fin n → Fin n → ℚ)} {e : PredError},
      gaussAux fuel k st = .error e → e = .singularMatrix := by
  induction fuel with
  | zero => intro k st e h; exact absurd h (by simp [gaussAux])
  | succ fuel ih =>
    intro k st e h
    rw [gaussAux] at h
    split at h
    · rename_i hk
      cases hg : gaussStep st ⟨k, hk⟩ with
      | error e' =>
        rw [hg, except_bind_error] at h
        exact (Except.error.inj h) ▸ gaussStep_error hg
      | ok st' =>
        rw [hg, except_bind_ok] at h
        exact ih h
    · exact absurd h (by simp)

theorem matrixInverse_error {n : ℕ} {A : Fin n → Fin n → ℚ} {e : PredError}
    (h : matrixInverse A = .error e) : e = .singularMatrix := by
  unfold matrixInverse at h
  rw [except_map_error_iff] at h
  exact gaussAux_error _ h

/-! ## Correctness of the Gauss-Jordan inversion

On success, the returned right half is a (two-sided, by commutativity over a
field) inverse of the input matrix.  The proof carries two invariants through
the column loop: the left half always equals the right half times the original
matrix (every row operation acts linearly on rows of both halves), and after
processing `k` columns the first `k` columns of the left half are identity
columns. -/

theorem pivotSearch_ge {n : ℕ} (L : Fin n → Fin n → ℚ) (col : Fin n) :
    col ≤ pivotSearch L col := by
  unfold pivotSearch
  have key : ∀ (l : List (Fin n)) (b : Fin n), col ≤ b →
      col ≤ l.foldl
        (fun best r => if col < r ∧ |L r col| > |L best col| then r else best) b := by
    intro l
    induction l with
    | nil => intro b hb; exact hb
    | cons x l ih =>
      intro b hb
      simp only [List.foldl_cons]
      by_cases h : col < x ∧ |L x col| > |L b col|
      · rw [if_pos h]; exact ih x h.1.le
      · rw [if_neg h]; exact ih b hb
  exact key _ col (le_refl col)

theorem swapRows_mul {n : ℕ} (R A : Fin n → Fin n → ℚ) (i j : Fin n) :
    matrixMultiply (swapRows R i j) A = swapRows (matrixMultiply R A) i j := rfl

theorem scaleRow_mul {n : ℕ} (R A : Fin n → Fin n → ℚ) (i : Fin n) (p : ℚ) :
    matrixMultiply (scaleRow R i p) A = scaleRow (matrixMultiply R A) i p := by
  funext r c
  by_cases h : r = i
  · simp only [matrixMultiply, scaleRow, if_pos h]
    rw [Finset.sum_div]
    exact Finset.sum_congr rfl (fun k _ => div_mul_eq_mul_div _ _ _)
  · simp only [matrixMultiply, scaleRow, if_neg h]

theorem eliminate_mul {n : ℕ} (R A : Fin n → Fin n → ℚ) (f : Fin n → ℚ) (col : Fin n) :
    matrixMultiply (eliminate R f col) A = eliminate (matrixMultiply R A) f col := by
  funext r c
  by_cases h : r = col
  · simp only [matrixMultiply, eliminate, if_pos h]
  · simp only [matrixMultiply, eliminate, if_neg h]
    rw [Finset.mul_sum, ← Finset.sum_sub_distrib]
    exact Finset.sum_congr rfl (fun k _ => by ring)

theorem gaussStep_invariant {n : ℕ} {A : Fin n → Fin n → ℚ} {k : ℕ} (hk : k < n)
    {st st' : (Fin n → Fin n → ℚ) × (Fin n → Fin n → ℚ)}
    (hinv : GaussInvariant A k st) (h : gaussStep st ⟨k, hk⟩ = .ok st') :
    GaussInvariant A (k + 1) st' := by
  obtain ⟨hLR, hcols⟩ := hinv
  set col : Fin n := ⟨k, hk⟩ with hcol
  set piv := pivotSearch st.1 col with hpiv
  have hpivge : col ≤ piv := pivotSearch_ge st.1 col
  simp only [gaussStep] at h
  rw [← hpiv] at h
  split at h
  · exact absurd h (by simp)
  · rename_i hp
    set L1 := swapRows st.1 col piv with hL1
    set R1 := swapRows st.2 col piv with hR1
    set p := L1 col col with hpdef
    have hpne : p ≠ 0 := by
      intro h0
      apply hp
      show |L1 col col| < (1e-12 : ℚ)
      rw [← hpdef, h0]
      norm_num
    set L2 := scaleRow L1 col p with hL2
    set R2 := scaleRow R1 col p with hR2
    have hstep := Except.ok.inj h
    -- identity-column facts carried through the three row operations
    have hL1cols : ∀ j : Fin n, (j : ℕ) < k → ∀ r, L1 r j = if r = j then 1 else 0 := by
      intro j hj r
      have hjcol : j ≠ col := by
        intro he; rw [he] at hj; simp [hcol] at hj
      have hjpiv : j ≠ piv := by
        intro he
        have hle : (col : Fin n) ≤ j := he ▸ hpivge
        have : k ≤ (j : ℕ) := hle
        omega
      have hfix : Equiv.swap col piv j = j :=
        Equiv.swap_apply_of_ne_of_ne hjcol hjpiv
      rw [hL1]
      show st.1 (Equiv.swap col piv r) j = if r = j then 1 else 0
      rw [hcols j hj (Equiv.swap col piv r)]
      by_cases hr : r = j
      · rw [if_pos (by rw [hr, hfix]), if_pos hr]
      · rw [if_neg (fun hc => hr ((Equiv.swap col piv).injective (hc.trans hfix.symm))),
          if_neg hr]
    have hL2cols : ∀ j : Fin n, (j : ℕ) < k → ∀ r, L2 r j = if r = j then 1 else 0 := by
      intro j hj r
      have hjcol : j ≠ col := by
        intro he; rw [he] at hj; simp [hcol] at hj
      rw [hL2]
      show (if r = col then L1 r j / p else L1 r j) = if r = j then 1 else 0
      by_cases hr : r = col
      · have hrj : r ≠ j := fun hc => hjcol ((hr.symm.trans hc).symm)
        rw [if_pos hr, hL1cols j hj r, if_neg hrj, zero_div]
      · rw [if_neg hr, hL1cols j hj r]
    have hL2colcol : L2 col col = 1 := by
      rw [hL2]
      show (if col = col then L1 col col / p else L1 col col) = 1
      rw [if_pos rfl, ← hpdef, div_self hpne]
    have hL3cols : ∀ j : Fin n, (j : ℕ) < k → ∀ r,
        eliminate L2 (fun r => L2 r col) col r j = if r = j then 1 else 0 := by
      intro j hj r
      have hjcol : j ≠ col := by
        intro he; rw [he] at hj; simp [hcol] at hj
      have hcolj : L2 col j = 0 := by
        rw [hL2cols j hj col, if_neg (fun hc => hjcol hc.symm)]
      show (if r = col then L2 r j else L2 r j - L2 r col * L2 col j) =
        if r = j then 1 else 0
      by_cases hr : r = col
      · rw [if_pos hr, hL2cols j hj r]
      · rw [if_neg hr, hcolj, mul_zero, sub_zero, hL2cols j hj r]
    have hL3col : ∀ r,
        eliminate L2 (fun r => L2 r col) col r col = if r = col then 1 else 0 := by
      intro r
      show (if r = col then L2 r col else L2 r col - L2 r col * L2 col col) =
        if r = col then 1 else 0
      by_cases hr : r = col
      · rw [if_pos hr, if_pos hr, hr, hL2colcol]
      · rw [if_neg hr, if_neg hr, hL2colcol, mul_one, sub_self]
    have hLR1 : L1 = matrixMultiply R1 A := by
      rw [hL1, hR1, hLR, swapRows_mul]
    have hLR2 : L2 = matrixMultiply R2 A := by
      rw [hL2, hR2, hLR1, scaleRow_mul]
    have hLR3 : eliminate L2 (fun r => L2 r col) col =
        matrixMultiply (eliminate R2 (fun r => L2 r col) col) A := by
      rw [eliminate_mul, ← hLR2]
    subst hstep
    constructor
    · exact hLR3
    · intro j hj r
      rcases Nat.lt_succ_iff_lt_or_eq.mp hj with hj' | hj'
      · exact hL3cols j hj' r
      · have hje : j = col := Fin.ext hj'
        rw [hje]
        exact hL3col r

theorem gaussAux_invariant {n : ℕ} {A : Fin n → Fin n → ℚ} (fuel : ℕ) :
    ∀ (k : ℕ) (st st' : (Fin n → Fin n → ℚ) × (Fin n → Fin n → ℚ)),
      GaussInvariant A k st → gaussAux fuel k st = .ok st' →
      GaussInvariant A (k + fuel) st' := by
  induction fuel with
  | zero =>
    intro k st st' hinv h
    rw [gaussAux] at h
    exact (Except.ok.inj h) ▸ hinv
  | succ fuel ih =>
    intro k st st' hinv h
    rw [gaussAux] at h
    split at h
    · rename_i hk
      cases hg : gaussStep st ⟨k, hk⟩ with
      | error e =>
        rw [hg, except_bind_error] at h
        exact absurd h (by simp)
      | ok st1 =>
        rw [hg, except_bind_ok] at h
        have hres := ih (k + 1) st1 st' (gaussStep_invariant hk hinv hg) h
        have harith : k + 1 + fuel = k + (fuel + 1) := by omega
        rw [harith] at hres
        exact hres
    · rename_i hk
      have hst : st' = st := (Except.ok.inj h).symm
      subst hst
      refine ⟨hinv.1, fun j hj r => hinv.2 j ?_ r⟩
      exact lt_of_lt_of_le j.isLt (le_of_not_lt hk)

/-- On success, Gauss-Jordan elimination returns a left inverse of its input. -/
theorem matrixInverse_left_inverse {n : ℕ} {A B : Fin n → Fin n → ℚ}
    (h : matrixInverse A = .ok B) : matrixMultiply B A = eye n := by
  unfold matrixInverse at h
  obtain ⟨st, hst, hB⟩ := except_map_ok_inv h
  have hinv0 : GaussInvariant A 0 (A, eye n) := by
    constructor
    · funext r c
      show A r c = ∑ k, eye n r k * A k c
      simp [eye, ite_mul, Finset.sum_ite_eq]
    · intro j hj
      exact absurd hj (by omega)
  have hfin := gaussAux_invariant n 0 (A, eye n) st hinv0 hst
  have hL : st.1 = eye n := by
    funext r j
    rw [hfin.2 j (by simp) r]
    rfl
  rw [hB, ← hfin.1, hL]

theorem matrixInverse_total {n : ℕ} (A : Fin n → Fin n → ℚ) :
    (∃ B, matrixInverse A = .ok B) ∨ matrixInverse A = .error .singularMatrix := by
  cases h : matrixInverse A with
  | ok B => exact Or.inl ⟨B, rfl⟩
  | error e =>
    right
    rw [← matrixInverse_error h]

/-- A matrix with two equal columns has no left inverse, so Gauss-Jordan
elimination must reject it. -/
theorem matrixInverse_singular_of_dup_columns {n : ℕ} {A : Fin n → Fin n → ℚ}
    {i j : Fin n} (hij : i ≠ j) (hcols : ∀ r, A r i = A r j) :
    matrixInverse A = .error .singularMatrix := by
  rcases matrixInverse_total A with ⟨B, hB⟩ | h
  · exfalso
    have hBA := matrixInverse_left_inverse hB
    have h1 : matrixMultiply B A i i = 1 := by
      rw [hBA]
      show (if i = i then (1:ℚ) else 0) = 1
      rw [if_pos rfl]
    have h2 : matrixMultiply B A i j = 0 := by
      rw [hBA]
      show (if i = j then (1:ℚ) else 0) = 0
      rw [if_neg hij]
    have h3 : matrixMultiply B A i i = matrixMultiply B A i j :=
      Finset.sum_congr rfl (fun k _ => by rw [hcols k])
    rw [h1, h2] at h3
    exact one_ne_zero h3
  · exact h

/-! ## Permutation machinery (for order-invariance of the prediction) -/

/-- A list permutation induces an index bijection compatible with `get`. -/
theorem perm_get_equiv {α : Type} {l l' : List α} (h : l.Perm l') :
    ∃ σ : Fin l'.length ≃ Fin l.length, ∀ i, l'.get i = l.get (σ i) := by
  induction h with
  | nil => exact ⟨Equiv.refl _, fun i => absurd i.isLt (Nat.not_lt_zero _)⟩
  | cons x htl ih =>
    obtain ⟨σ, hσ⟩ := ih
    refine ⟨finExtendEquiv σ, fun i => ?_⟩
    match i with
    | ⟨0, _⟩ => rfl
    | ⟨j + 1, hj⟩ => exact hσ ⟨j, Nat.lt_of_succ_lt_succ hj⟩
  | swap x y l =>
    refine ⟨finSwap01 l.length, fun i => ?_⟩
    match i with
    | ⟨0, _⟩ => rfl
    | ⟨1, _⟩ => rfl
    | ⟨j + 2, _⟩ => rfl
  | trans h1 h2 ih1 ih2 =>
    obtain ⟨σ1, hσ1⟩ := ih1
    obtain ⟨σ2, hσ2⟩ := ih2
    exact ⟨σ2.trans σ1, fun i => (hσ2 i).trans (hσ1 (σ2 i))⟩

theorem of_matrixMultiply {a b c : ℕ} (A : Fin a → Fin b → ℚ) (B : Fin b → Fin c → ℚ) :
    Matrix.of (matrixMultiply A B) = Matrix.of A * Matrix.of B := by
  ext i j
  rw [Matrix.mul_apply]
  rfl

theorem of_eye (k : ℕ) : Matrix.of (eye k) = (1 : Matrix (Fin k) (Fin k) ℚ) := by
  ext i j
  rw [Matrix.one_apply]
  rfl

/-- Two left inverses of the same square rational matrix agree (left inverses
are two-sided over a commutative ring). -/
theorem left_inverse_unique {k : ℕ} {A B C : Fin k → Fin k → ℚ}
    (hB : matrixMultiply B A = eye k) (hC : matrixMultiply C A = eye k) : B = C := by
  have hB' : Matrix.of B * Matrix.of A = 1 := by
    rw [← of_matrixMultiply, hB, of_eye]
  have hC' : Matrix.of C * Matrix.of A = 1 := by
    rw [← of_matrixMultiply, hC, of_eye]
  have hAB : Matrix.of A * Matrix.of B = 1 := Matrix.mul_eq_one_comm.mpr hB'
  have hof : Matrix.of B = Matrix.of C := by
    calc Matrix.of B = 1 * Matrix.of B := (one_mul _).symm
    _ = Matrix.of C * Matrix.of A * Matrix.of B := by rw [hC']
    _ = Matrix.of C * (Matrix.of A * Matrix.of B) := by rw [Matrix.mul_assoc]
    _ = Matrix.of C := by rw [hAB, mul_one]
  exact Matrix.of.injective hof

theorem mem_preLandmark_iff {p : ModelParameters} {obs : List PatientObservation}
    {o : PatientObservation} :
    o ∈ preLandmarkOf p obs ↔
      o ∈ obs ∧ o.day ≤ p.landmark_time_days ∧ o.log2easix.isSome = true := by
  simp [preLandmarkOf, List.mem_filter]

theorem predict_ok_inv {p : ModelParameters} {obs : List PatientObservation}
    {dri : ℚ} {r : PredictionResult}
    (h : predictDynamicEASIX p obs dri = .ok r) :
    ∃ c, predictCore p obs dri = .ok c ∧ r = resultOf c := by
  unfold predictDynamicEASIX at h
  exact except_map_ok_inv h

theorem predictCore_ok_inv {p : ModelParameters} {obs : List PatientObservation}
    {dri : ℚ} {c : PredictionCore} (h : predictCore p obs dri = .ok c) :
    ∃ Vinv, matrixInverse (Vof p (preLandmarkOf p obs)) = .ok Vinv ∧
      c = coreOf p (preLandmarkOf p obs) dri Vinv := by
  simp only [predictCore] at h
  split at h
  · exact absurd h (by simp)
  · split at h
    · exact absurd h (by simp)
    · exact except_map_ok_inv h

/-! ## Properties of the baseline-hazard interpolation -/

section Interpolation

variable {K : Type} [LinearOrderedField K]

theorem lastPoint_cons (x y : K × K) (l : List (K × K)) :
    lastPoint x (y :: l) = lastPoint y l := rfl

theorem bracketLoop_cons_cons (p q : K × K) (rest : List (K × K)) (t : K) :
    bracketLoop (p :: q :: rest) t =
      if q.1 < t then bracketLoop (q :: rest) t
      else p.2 + (q.2 - p.2) * (t - p.1) / (q.1 - p.1) := rfl

theorem interp_cons (x : K × K) (rest : List (K × K)) (t : K) :
    interpolateBaselineHazard (x :: rest) t =
      if t ≤ x.1 then x.2
      else if (lastPoint x rest).1 ≤ t then (lastPoint x rest).2
      else bracketLoop (x :: rest) t := rfl

theorem chain_head_le_lastPoint {x : K × K} {l : List (K × K)}
    (h : List.Chain' (fun a b : K × K => a.1 < b.1) (x :: l)) :
    x.1 ≤ (lastPoint x l).1 := by
  induction l generalizing x with
  | nil => exact le_refl _
  | cons y l ih =>
    rw [lastPoint_cons]
    have h1 : x.1 < y.1 := (List.chain'_cons.mp h).1
    exact le_trans h1.le (ih (List.chain'_cons.mp h).2)

theorem chain_head_lt_get {x : K × K} {l : List (K × K)}
    (h : List.Chain' (fun a b : K × K => a.1 < b.1) (x :: l)) (j : ℕ)
    (hj : j < l.length) : x.1 < (l.get ⟨j, hj⟩).1 := by
  induction j generalizing x l with
  | zero =>
    cases l with
    | nil => exact absurd hj (by simp)
    | cons y l => exact (List.chain'_cons.mp h).1
  | succ j ih =>
    cases l with
    | nil => exact absurd hj (by simp)
    | cons y l =>
      have h1 : x.1 < y.1 := (List.chain'_cons.mp h).1
      have h2 := ih (List.chain'_cons.mp h).2 (Nat.lt_of_succ_lt_succ (by simpa using hj))
      exact lt_trans h1 h2

theorem chain_head_le_get {x : K × K} {l : List (K × K)}
    (h : List.Chain' (fun a b : K × K => a.1 < b.1) (x :: l)) (j : ℕ)
    (hj : j < (x :: l).length) : x.1 ≤ ((x :: l).get ⟨j, hj⟩).1 := by
  cases j with
  | zero => exact le_refl _
  | succ j =>
    exact (chain_head_lt_get h j (Nat.lt_of_succ_lt_succ (by simpa using hj))).le

theorem interp_singleton (x : K × K) (t : K) :
    interpolateBaselineHazard [x] t = x.2 := by
  rw [interp_cons]
  split_ifs <;> rfl

theorem interp_head_clamp (x : K × K) (rest : List (K × K)) (t : K) (h : t ≤ x.1) :
    interpolateBaselineHazard (x :: rest) t = x.2 := by
  rw [interp_cons, if_pos h]

theorem interp_last_clamp (x : K × K) (rest : List (K × K)) (t : K)
    (hch : List.Chain' (fun a b : K × K => a.1 < b.1) (x :: rest))
    (h : (lastPoint x rest).1 ≤ t) :
    interpolateBaselineHazard (x :: rest) t = (lastPoint x rest).2 := by
  cases rest with
  | nil =>
    rw [interp_cons]
    split_ifs <;> rfl
  | cons y l =>
    have hxy : x.1 < y.1 := (List.chain'_cons.mp hch).1
    have hylast : y.1 ≤ (lastPoint y l).1 :=
      chain_head_le_lastPoint (List.chain'_cons.mp hch).2
    have hxt : ¬ (t ≤ x.1) := by
      rw [lastPoint_cons] at h
      intro hc
      have := le_trans hylast h
      linarith
    rw [interp_cons, if_neg hxt, if_pos h]

theorem interp_cons_cons (p q : K × K) (rest : List (K × K)) (t : K)
    (hch : List.Chain' (fun a b : K × K => a.1 < b.1) (p :: q :: rest)) :
    interpolateBaselineHazard (p :: q :: rest) t =
      if t ≤ q.1 then
        (if t ≤ p.1 then p.2
         else p.2 + (q.2 - p.2) * (t - p.1) / (q.1 - p.1))
      else interpolateBaselineHazard (q :: rest) t := by
  have hpq : p.1 < q.1 := (List.chain'_cons.mp hch).1
  have hch' : List.Chain' (fun a b : K × K => a.1 < b.1) (q :: rest) :=
    (List.chain'_cons.mp hch).2
  have hql : q.1 ≤ (lastPoint q rest).1 := chain_head_le_lastPoint hch'
  by_cases h1 : t ≤ p.1
  · rw [interp_head_clamp _ _ _ h1, if_pos (le_trans h1 hpq.le), if_pos h1]
  · by_cases h2 : t ≤ q.1
    · rw [if_pos h2, if_neg h1]
      by_cases h3 : (lastPoint q rest).1 ≤ t
      · have htq : t = q.1 := le_antisymm h2 (le_trans hql h3)
        cases rest with
        | nil =>
          rw [interp_last_clamp _ _ _ hch (by simpa [lastPoint_cons] using h3)]
          show q.2 = _
          rw [htq, mul_div_assoc, div_self (ne_of_gt (sub_pos.mpr hpq))]
          ring
        | cons r l =>
          exfalso
          have hqr : q.1 < r.1 := (List.chain'_cons.mp hch').1
          have hrl : r.1 ≤ (lastPoint r l).1 :=
            chain_head_le_lastPoint (List.chain'_cons.mp hch').2
          rw [lastPoint_cons] at h3
          linarith [htq ▸ h3]
      · rw [interp_cons, if_neg h1, lastPoint_cons, if_neg h3,
          bracketLoop_cons_cons, if_neg (not_lt.mpr h2)]
    · rw [if_neg h2]
      rw [interp_cons, interp_cons (x := q), if_neg h1, if_neg h2, lastPoint_cons]
      by_cases h3 : (lastPoint q rest).1 ≤ t
      · rw [if_pos h3, if_pos h3]
      · rw [if_neg h3, if_neg h3, bracketLoop_cons_cons, if_pos (lt_of_not_le h2)]

theorem interp_segment (pts : List (K × K))
    (hch : List.Chain' (fun a b : K × K => a.1 < b.1) pts) (i : ℕ)
    (hi : i + 1 < pts.length) (t : K)
    (h1 : (pts.get ⟨i, Nat.lt_of_succ_lt hi⟩).1 ≤ t)
    (h2 : t ≤ (pts.get ⟨i + 1, hi⟩).1) :
    interpolateBaselineHazard pts t =
      (pts.get ⟨i, Nat.lt_of_succ_lt hi⟩).2 +
        ((pts.get ⟨i + 1, hi⟩).2 - (pts.get ⟨i, Nat.lt_of_succ_lt hi⟩).2) *
          (t - (pts.get ⟨i, Nat.lt_of_succ_lt hi⟩).1) /
          ((pts.get ⟨i + 1, hi⟩).1 - (pts.get ⟨i, Nat.lt_of_succ_lt hi⟩).1) := by
  induction pts generalizing i with
  | nil => exact absurd hi (by simp)
  | cons p rest ih =>
    cases rest with
    | nil => simp at hi
    | cons q rest' =>
      have hpq : p.1 < q.1 := (List.chain'_cons.mp hch).1
      have hch' : List.Chain' (fun a b : K × K => a.1 < b.1) (q :: rest') :=
        (List.chain'_cons.mp hch).2
      rw [interp_cons_cons p q rest' t hch]
      cases i with
      | zero =>
        have h1' : p.1 ≤ t := h1
        have h2' : t ≤ q.1 := h2
        show (if t ≤ q.1 then
            (if t ≤ p.1 then p.2 else p.2 + (q.2 - p.2) * (t - p.1) / (q.1 - p.1))
          else interpolateBaselineHazard (q :: rest') t) =
          p.2 + (q.2 - p.2) * (t - p.1) / (q.1 - p.1)
        rw [if_pos h2']
        by_cases h0 : t ≤ p.1
        · have ht : t = p.1 := le_antisymm h0 h1'
          rw [if_pos h0, ht]
          simp
        · rw [if_neg h0]
      | succ i =>
        have hi' : i + 1 < (q :: rest').length := Nat.lt_of_succ_lt_succ (by simpa using hi)
        have h1' : ((q :: rest').get ⟨i, Nat.lt_of_succ_lt hi'⟩).1 ≤ t := h1
        have h2' : t ≤ ((q :: rest').get ⟨i + 1, hi'⟩).1 := h2
        show (if t ≤ q.1 then
            (if t ≤ p.1 then p.2 else p.2 + (q.2 - p.2) * (t - p.1) / (q.1 - p.1))
          else interpolateBaselineHazard (q :: rest') t) =
          ((q :: rest').get ⟨i, Nat.lt_of_succ_lt hi'⟩).2 +
            (((q :: rest').get ⟨i + 1, hi'⟩).2 -
              ((q :: rest').get ⟨i, Nat.lt_of_succ_lt hi'⟩).2) *
              (t - ((q :: rest').get ⟨i, Nat.lt_of_succ_lt hi'⟩).1) /
              (((q :: rest').get ⟨i + 1, hi'⟩).1 -
                ((q :: rest').get ⟨i, Nat.lt_of_succ_lt hi'⟩).1)
        by_cases hqt : t ≤ q.1
        · cases i with
          | zero =>
            have hq0 : ((q :: rest').get ⟨0, Nat.lt_of_succ_lt hi'⟩) = q := rfl
            have ht : t = q.1 := le_antisymm hqt (hq0 ▸ h1')
            rw [if_pos hqt, if_neg (by rw [ht]; exact not_le.mpr hpq)]
            have hL : p.2 + (q.2 - p.2) * (t - p.1) / (q.1 - p.1) = q.2 := by
              rw [ht, mul_div_assoc, div_self (ne_of_gt (sub_pos.mpr hpq))]; ring
            rw [hL, hq0, ht]
            simp
          | succ i' =>
            exfalso
            have hi'' : i' < rest'.length := by simpa using Nat.lt_of_succ_lt hi'
            have hlt : q.1 < (rest'.get ⟨i', hi''⟩).1 :=
              chain_head_lt_get hch' i' hi''
            have h1'' : (rest'.get ⟨i', hi''⟩).1 ≤ t := h1'
            linarith
        · rw [if_neg hqt]
          exact ih hch' i hi' h1' h2'

theorem monotone_ite_le {f g : K → K} {c : K} (hf : Monotone f) (hg : Monotone g)
    (hfg : f c ≤ g c) : Monotone (fun t => if t ≤ c then f t else g t) := by
  intro s t hst
  simp only
  by_cases hs : s ≤ c
  · by_cases ht : t ≤ c
    · rw [if_pos hs, if_pos ht]; exact hf hst
    · rw [if_pos hs, if_neg ht]
      exact le_trans (hf hs) (le_trans hfg (hg (not_le.mp ht).le))
  · have ht : ¬ t ≤ c := fun hc => hs (le_trans hst hc)
    rw [if_neg hs, if_neg ht]; exact hg hst

theorem seg_monotone {p q : K × K} (hpq : p.1 < q.1) (hle : p.2 ≤ q.2) :
    Monotone (fun t => p.2 + (q.2 - p.2) * (t - p.1) / (q.1 - p.1)) := by
  intro s t hst
  have hd : (0:K) < q.1 - p.1 := sub_pos.mpr hpq
  have hnum : (q.2 - p.2) * (s - p.1) ≤ (q.2 - p.2) * (t - p.1) :=
    mul_le_mul_of_nonneg_left (by linarith) (by linarith)
  simp only [div_eq_mul_inv]
  exact add_le_add_left (mul_le_mul_of_nonneg_right hnum (inv_nonneg.mpr hd.le)) _

theorem interp_monotone (pts : List (K × K))
    (hT : List.Chain' (fun a b : K × K => a.1 < b.1) pts)
    (hH : List.Chain' (fun a b : K × K => a.2 ≤ b.2) pts) :
    Monotone (interpolateBaselineHazard pts) := by
  induction pts with
  | nil =>
    have h : interpolateBaselineHazard ([] : List (K × K)) = fun _ : K => 0 := rfl
    rw [h]; exact monotone_const
  | cons p rest ih =>
    cases rest with
    | nil =>
      have h : interpolateBaselineHazard [p] = fun _ : K => p.2 :=
        funext fun t => interp_singleton p t
      rw [h]; exact monotone_const
    | cons q rest' =>
      have hpq : p.1 < q.1 := (List.chain'_cons.mp hT).1
      have hple : p.2 ≤ q.2 := (List.chain'_cons.mp hH).1
      have hT' := (List.chain'_cons.mp hT).2
      have hH' := (List.chain'_cons.mp hH).2
      have heq : interpolateBaselineHazard (p :: q :: rest') = fun t =>
          if t ≤ q.1 then
            (if t ≤ p.1 then p.2 else p.2 + (q.2 - p.2) * (t - p.1) / (q.1 - p.1))
          else interpolateBaselineHazard (q :: rest') t :=
        funext fun t => interp_cons_cons p q rest' t hT
      rw [heq]
      have hseg_at_q : p.2 + (q.2 - p.2) * (q.1 - p.1) / (q.1 - p.1) = q.2 := by
        rw [mul_div_assoc, div_self (ne_of_gt (sub_pos.mpr hpq))]
        ring
      apply monotone_ite_le
      · exact monotone_ite_le monotone_const (seg_monotone hpq hple)
          (le_of_eq (by simp))
      · exact ih hT' hH'
      · rw [if_neg (not_le.mpr hpq), interp_head_clamp q rest' q.1 (le_refl _)]
        exact le_of_eq hseg_at_q

theorem interp_nonneg (pts : List (K × K))
    (hT : List.Chain' (fun a b : K × K => a.1 < b.1) pts)
    (hpos : ∀ z ∈ pts, 0 ≤ z.2) (t : K) :
    0 ≤ interpolateBaselineHazard pts t := by
  induction pts with
  | nil => exact le_refl _
  | cons p rest ih =>
    cases rest with
    | nil => rw [interp_singleton]; exact hpos p (by simp)
    | cons q rest' =>
      have hpq : p.1 < q.1 := (List.chain'_cons.mp hT).1
      have hT' := (List.chain'_cons.mp hT).2
      rw [interp_cons_cons p q rest' t hT]
      have hp2 : 0 ≤ p.2 := hpos p (by simp)
      have hq2 : 0 ≤ q.2 := hpos q (by simp)
      split_ifs with h2 h1
      · exact hp2
      · have hd : (0:K) < q.1 - p.1 := sub_pos.mpr hpq
        have hl0 : 0 ≤ (t - p.1) / (q.1 - p.1) :=
          div_nonneg (by linarith [not_le.mp h1]) hd.le
        have hl1 : (t - p.1) / (q.1 - p.1) ≤ 1 := (div_le_one hd).mpr (by linarith)
        have he : p.2 + (q.2 - p.2) * (t - p.1) / (q.1 - p.1) =
            p.2 * (1 - (t - p.1) / (q.1 - p.1)) + q.2 * ((t - p.1) / (q.1 - p.1)) := by
          rw [mul_div_assoc]; ring
        rw [he]
        exact add_nonneg (mul_nonneg hp2 (by linarith)) (mul_nonneg hq2 hl0)
      · exact ih hT' (fun z hz => hpos z (List.mem_cons_of_mem p hz))

end Interpolation

/-- Continuity of the interpolation over the reals. -/
theorem interp_continuous (pts : List (ℝ × ℝ))
    (hT : List.Chain' (fun a b : ℝ × ℝ => a.1 < b.1) pts) :
    Continuous (interpolateBaselineHazard pts) := by
  induction pts with
  | nil =>
    have h : interpolateBaselineHazard ([] : List (ℝ × ℝ)) = fun _ : ℝ => 0 := rfl
    rw [h]; exact continuous_const
  | cons p rest ih =>
    cases rest with
    | nil =>
      have h : interpolateBaselineHazard [p] = fun _ : ℝ => p.2 :=
        funext fun t => interp_singleton p t
      rw [h]; exact continuous_const
    | cons q rest' =>
      have hpq : p.1 < q.1 := (List.chain'_cons.mp hT).1
      have hT' := (List.chain'_cons.mp hT).2
      have heq : interpolateBaselineHazard (p :: q :: rest') = fun t =>
          if t ≤ q.1 then
            (if t ≤ p.1 then p.2 else p.2 + (q.2 - p.2) * (t - p.1) / (q.1 - p.1))
          else interpolateBaselineHazard (q :: rest') t :=
        funext fun t => interp_cons_cons p q rest' t hT
      rw [heq]
      have hseg : Continuous fun t : ℝ =>
          p.2 + (q.2 - p.2) * (t - p.1) / (q.1 - p.1) := by
        apply continuous_const.add
        exact ((continuous_const.mul (continuous_id.sub continuous_const)).div_const _)
      have hpiece : Continuous fun t : ℝ =>
          if t ≤ p.1 then p.2 else p.2 + (q.2 - p.2) * (t - p.1) / (q.1 - p.1) := by
        apply Continuous.if_le continuous_const hseg continuous_id continuous_const
        intro x hx
        rw [id_eq] at hx
        rw [hx]
        simp
      apply Continuous.if_le hpiece (ih hT') continuous_id continuous_const
      intro x hx
      rw [id_eq] at hx
      rw [hx, if_neg (not_le.mpr hpq), interp_head_clamp q rest' q.1 (le_refl _),
        mul_div_assoc, div_self (ne_of_gt (sub_pos.mpr hpq))]
      ring

/-! ## Elementary exponential bounds (for the worked scenario) -/

theorem real_exp_le_inv_one_sub {y : ℝ} (hy : y < 1) : Real.exp y ≤ (1 - y)⁻¹ := by
  have h1 : 1 - y ≤ Real.exp (-y) := by
    have := Real.add_one_le_exp (-y)
    linarith
  have hpos : (0:ℝ) < Real.exp y := Real.exp_pos y
  have hsub : (0:ℝ) < 1 - y := by linarith
  have hmul : Real.exp (-y) * Real.exp y = 1 := by
    rw [← Real.exp_add]; simp
  have key : (1 - y) * Real.exp y ≤ 1 := by
    calc (1 - y) * Real.exp y ≤ Real.exp (-y) * Real.exp y :=
          mul_le_mul_of_nonneg_right h1 hpos.le
    _ = 1 := hmul
  have h2 := mul_le_mul_of_nonneg_left key (inv_nonneg.mpr hsub.le)
  rw [← mul_assoc, inv_mul_cancel₀ (ne_of_gt hsub), one_mul, mul_one] at h2
  exact h2

theorem exp_two_lb : (7.389056 : ℝ) < Real.exp 2 := by
  have h := Real.exp_one_gt_d9
  have h2 : Real.exp 2 = Real.exp 1 * Real.exp 1 := by
    rw [← Real.exp_add]; norm_num
  nlinarith

theorem exp_two_ub : Real.exp 2 < (7.3890562 : ℝ) := by
  have h := Real.exp_one_lt_d9
  have h0 := Real.exp_pos 1
  have h2 : Real.exp 2 = Real.exp 1 * Real.exp 1 := by
    rw [← Real.exp_add]; norm_num
  nlinarith

theorem survival_fixture_bound :
    |survivalProb (1/4 : ℝ) (34817/16200 : ℝ) - 117/1000| ≤ 1/100 := by
  have hEx : Real.exp (34817/16200 : ℝ) = Real.exp 2 * Real.exp (2417/16200 : ℝ) := by
    rw [← Real.exp_add]; norm_num
  have hyL : (1:ℝ) + 2417/16200 ≤ Real.exp (2417/16200 : ℝ) := by
    have := Real.add_one_le_exp (2417/16200 : ℝ); linarith
  have hyU : Real.exp (2417/16200 : ℝ) ≤ 16200/13783 := by
    calc Real.exp (2417/16200 : ℝ) ≤ (1 - 2417/16200 : ℝ)⁻¹ :=
          real_exp_le_inv_one_sub (by norm_num)
    _ = 16200/13783 := by norm_num
  have hExL : (8.4914 : ℝ) ≤ Real.exp (34817/16200 : ℝ) := by
    rw [hEx]; nlinarith [exp_two_lb, Real.exp_pos (2417/16200 : ℝ)]
  have hExU : Real.exp (34817/16200 : ℝ) ≤ (8.6849 : ℝ) := by
    rw [hEx]; nlinarith [exp_two_ub, Real.exp_pos (2417/16200 : ℝ), Real.exp_pos 2]
  have hsdef : survivalProb (1/4 : ℝ) (34817/16200 : ℝ) =
      Real.exp (-(1/4 * Real.exp (34817/16200 : ℝ))) := by
    unfold survivalProb
    congr 1
    ring
  have hsU : survivalProb (1/4 : ℝ) (34817/16200 : ℝ) ≤ Real.exp (-(2.12285 : ℝ)) := by
    rw [hsdef]
    apply Real.exp_le_exp.mpr
    nlinarith [hExL]
  have hsL : Real.exp (-(2.171225 : ℝ)) ≤ survivalProb (1/4 : ℝ) (34817/16200 : ℝ) := by
    rw [hsdef]
    apply Real.exp_le_exp.mpr
    nlinarith [hExU]
  have hupper : Real.exp (-(2.12285 : ℝ)) ≤ 0.1206 := by
    rw [Real.exp_neg]
    have hE : (8.2968 : ℝ) ≤ Real.exp (2.12285 : ℝ) := by
      have h1 : Real.exp (2.12285 : ℝ) = Real.exp 2 * Real.exp (0.12285 : ℝ) := by
        rw [← Real.exp_add]; norm_num
      have h2 : (1:ℝ) + 0.12285 ≤ Real.exp (0.12285 : ℝ) := by
        have := Real.add_one_le_exp (0.12285 : ℝ); linarith
      rw [h1]; nlinarith [exp_two_lb, Real.exp_pos (0.12285 : ℝ)]
    calc (Real.exp (2.12285 : ℝ))⁻¹ ≤ (8.2968 : ℝ)⁻¹ :=
          inv_anti₀ (by norm_num) hE
    _ ≤ 0.1206 := by norm_num
  have hlower : (0.112 : ℝ) ≤ Real.exp (-(2.171225 : ℝ)) := by
    rw [Real.exp_neg]
    have hE : Real.exp (2.171225 : ℝ) ≤ 8.9158 := by
      have h1 : Real.exp (2.171225 : ℝ) = Real.exp 2 * Real.exp (0.171225 : ℝ) := by
        rw [← Real.exp_add]; norm_num
      have h2 : Real.exp (0.171225 : ℝ) ≤ 1.20661 := by
        calc Real.exp (0.171225 : ℝ) ≤ (1 - 0.171225 : ℝ)⁻¹ :=
              real_exp_le_inv_one_sub (by norm_num)
        _ ≤ 1.20661 := by norm_num
      rw [h1]; nlinarith [exp_two_ub, Real.exp_pos (0.171225 : ℝ), Real.exp_pos 2]
    calc (0.112 : ℝ) ≤ (8.9158 : ℝ)⁻¹ := by norm_num
    _ ≤ (Real.exp (2.171225 : ℝ))⁻¹ := inv_anti₀ (Real.exp_pos _) hE
  rw [abs_le]
  constructor
  · linarith
  · linarith

/-! ## Claim theorems -/

/-- C1: on the worked-scenario fixture with observations at days 60 and 90 and
risk indicator 1, the exact-GLS `predictDynamicEASIX` succeeds and returns
`log2easix_at_landmark` within 0.02 of 2.28, `slope_at_landmark` within 0.02
of 0.48, `linear_predictor` within 0.05 of 2.15, `survival_2yr` within 0.01 of
0.117, and `event_rate_2yr_percent` within 1.0 of 88.3. -/
theorem worked_scenario_prediction :
    ∃ r, predictDynamicEASIX fixtureParams fixtureObs 1 = .ok r ∧
      |r.log2easix_at_landmark - 228/100| ≤ 2/100 ∧
      |r.slope_at_landmark - 48/100| ≤ 2/100 ∧
      |r.linear_predictor - 215/100| ≤ 5/100 ∧
      |r.survival_2yr - 117/1000| ≤ 1/100 ∧
      |r.event_rate_2yr_percent - 883/10| ≤ 1 := by
  have hcast1 : ((fixtureCore.baselineH0 : ℚ) : ℝ) = 1/4 := by
    norm_num [fixtureCore]
  have hcast2 : ((fixtureCore.linear_predictor : ℚ) : ℝ) = 34817/16200 := by
    norm_num [fixtureCore]
  refine ⟨resultOf fixtureCore, ?_, ?_, ?_, ?_, ?_, ?_⟩
  · unfold predictDynamicEASIX
    rw [show predictCore fixtureParams fixtureObs 1 = .ok fixtureCore from by decide]
    rfl
  · decide
  · decide
  · decide
  · show |survivalProb ((fixtureCore.baselineH0 : ℚ) : ℝ)
      ((fixtureCore.linear_predictor : ℚ) : ℝ) - 117/1000| ≤ 1/100
    rw [hcast1, hcast2]
    exact survival_fixture_bound
  · show |(1 - survivalProb ((fixtureCore.baselineH0 : ℚ) : ℝ)
      ((fixtureCore.linear_predictor : ℚ) : ℝ)) * 100 - 883/10| ≤ 1
    rw [hcast1, hcast2]
    have hb := survival_fixture_bound
    rw [abs_le] at hb ⊢
    constructor
    · linarith [hb.2]
    · linarith [hb.1]

/-- C2: the two BLUP estimation strategies are not numerically equivalent: on
the worked-scenario fixture (n = 2 observations), both the exact-GLS variant
and the OLS-plus-independent-shrinkage variant of `predictDynamicEASIX`
succeed but return different `PredictionResult`s. -/
theorem blup_variants_not_equivalent :
    ∃ r1 r2, predictDynamicEASIX fixtureParams fixtureObs 1 = .ok r1 ∧
      predictDynamicEASIXOLS fixtureParams fixtureObs 1 = .ok r2 ∧ r1 ≠ r2 := by
  refine ⟨resultOf fixtureCore,
    resultOf ⟨33771/14620, 17/1032, 537689/438600, 1/4⟩, ?_, ?_, ?_⟩
  · unfold predictDynamicEASIX
    rw [show predictCore fixtureParams fixtureObs 1 = .ok fixtureCore from by decide]
    rfl
  · unfold predictDynamicEASIXOLS
    rw [show predictCoreOLS fixtureParams fixtureObs 1 =
      .ok ⟨33771/14620, 17/1032, 537689/438600, 1/4⟩ from by decide]
    rfl
  · intro hEq
    have hs := congrArg PredictionResult.slope_at_landmark hEq
    simp only [resultOf, fixtureCore] at hs
    exact absurd hs (by decide)

/-- C6: the observation preprocessing keeps exactly the observations whose day
is at most the landmark time and whose value is finite; an observation at
`day = landmark_time` (with finite value) is kept, one at
`day = landmark_time + ε` for `ε > 0` is excluded, and one with a non-finite
value is excluded. -/
theorem preLandmark_filter_spec (p : ModelParameters) (obs : List PatientObservation) :
    (∀ o, o ∈ preLandmarkOf p obs ↔
      o ∈ obs ∧ o.day ≤ p.landmark_time_days ∧ o.log2easix.isSome = true) ∧
    (∀ o ∈ obs, o.day = p.landmark_time_days → o.log2easix.isSome = true →
      o ∈ preLandmarkOf p obs) ∧
    (∀ ε : ℚ, 0 < ε → ∀ o ∈ obs, o.day = p.landmark_time_days + ε →
      o ∉ preLandmarkOf p obs) ∧
    (∀ o ∈ obs, o.log2easix = none → o ∉ preLandmarkOf p obs) := by
  refine ⟨fun _ => mem_preLandmark_iff, ?_, ?_, ?_⟩
  · intro o ho hday hfin
    exact mem_preLandmark_iff.mpr ⟨ho, le_of_eq hday, hfin⟩
  · intro ε hε o _ hday hmem
    have hle := (mem_preLandmark_iff.mp hmem).2.1
    rw [hday] at hle
    linarith
  · intro o _ hnone hmem
    have hfin := (mem_preLandmark_iff.mp hmem).2.2
    rw [hnone] at hfin
    exact absurd hfin (by simp)

/-- Witness for C6 at a concrete observation list: the day-120 observation is
kept, the day-121 observation (landmark + 1) is excluded, and the non-finite
day-60 observation is excluded. -/
theorem preLandmark_filter_spec_witness :
    ((⟨120, some 1⟩ : PatientObservation) ∈
      preLandmarkOf fixtureParams [⟨120, some 1⟩, ⟨121, some 1⟩, ⟨60, none⟩]) ∧
    ((⟨121, some 1⟩ : PatientObservation) ∉
      preLandmarkOf fixtureParams [⟨120, some 1⟩, ⟨121, some 1⟩, ⟨60, none⟩]) ∧
    ((⟨60, none⟩ : PatientObservation) ∉
      preLandmarkOf fixtureParams [⟨120, some 1⟩, ⟨121, some 1⟩, ⟨60, none⟩]) := by
  refine ⟨?_, ?_, ?_⟩
  · exact (preLandmark_filter_spec fixtureParams _).2.1 _ (by decide) (by decide) (by decide)
  · exact (preLandmark_filter_spec fixtureParams _).2.2.1 1 (by decide) _ (by decide) (by decide)
  · exact (preLandmark_filter_spec fixtureParams _).2.2.2 _ (by decide) (by decide)

/-- C7: the prediction fails with `InsufficientObservations` precisely when
fewer than 2 qualifying observations remain after filtering (in which case no
`PredictionResult` is returned); with 2 or more qualifying observations this
failure does not occur. -/
theorem insufficient_obs_iff (p : ModelParameters) (obs : List PatientObservation)
    (dri : ℚ) :
    predictDynamicEASIX p obs dri = .error .insufficientObservations ↔
      (preLandmarkOf p obs).length < 2 := by
  constructor
  · intro h
    unfold predictDynamicEASIX at h
    rw [except_map_error_iff] at h
    simp only [predictCore] at h
    by_contra hlen
    rw [if_neg hlen] at h
    split at h
    · exact PredError.noConfusion (Except.error.inj h).symm
    · rw [except_map_error_iff] at h
      exact PredError.noConfusion (matrixInverse_error h)
  · intro hlen
    unfold predictDynamicEASIX
    simp only [predictCore]
    rw [if_pos hlen]
    rfl

/-- Witness for C7: the empty observation list has fewer than 2 qualifying
observations and indeed fails with `InsufficientObservations`. -/
theorem insufficient_obs_iff_witness :
    predictDynamicEASIX fixtureParams [] 1 = .error .insufficientObservations :=
  (insufficient_obs_iff fixtureParams [] 1).mpr (by decide)

/-- C8 counterexample: the claimed strict monotonicity fails at `H0 = 0` (the
survival probability is constantly `1` there), so the statement quantified
over all `H0 ≥ 0` is false. -/
theorem survival_monotone_counterexample :
    ¬ (survivalProb 0 0 > survivalProb 0 1) := by
  simp [survivalProb]

/-- C8 (amended): for strictly positive interpolated baseline hazard `H0`,
the survival probability `exp(-H0·exp(lp))` is strictly decreasing in the
linear predictor (at `H0 = 0` it is constant, so positivity is required for
strictness). -/
theorem survival_strict_anti (H0 lp1 lp2 : ℝ) (h : 0 < H0) (hlt : lp1 < lp2) :
    survivalProb H0 lp2 < survivalProb H0 lp1 := by
  unfold survivalProb
  apply Real.exp_lt_exp.mpr
  have he : Real.exp lp1 < Real.exp lp2 := Real.exp_lt_exp.mpr hlt
  nlinarith

/-- Witness for C8 (amended) at `H0 = 1`, `lp1 = 0`, `lp2 = 1`. -/
theorem survival_strict_anti_witness :
    (0:ℝ) < 1 ∧ (0:ℝ) < 1 ∧ survivalProb 1 1 < survivalProb 1 0 :=
  ⟨one_pos, one_pos, survival_strict_anti 1 0 1 one_pos one_pos⟩

/-- C9 counterexample: the filter does not enforce non-negative days — an
observation with day `-1` (and finite value) is kept by the preprocessing. -/
theorem kept_day_nonneg_counterexample :
    (⟨-1, some 1⟩ : PatientObservation) ∈ preLandmarkOf fixtureParams [⟨-1, some 1⟩] ∧
      ¬ ((0:ℚ) ≤ (-1:ℚ)) := by
  constructor
  · decide
  · decide

/-- C9 (amended): non-negativity of days is an input invariant preserved by
the filter, not enforced by it: if every input observation has `day ≥ 0`,
then every kept observation satisfies `0 ≤ day ≤ landmark_time` (and days are
finite by construction, being rationals). -/
theorem kept_day_invariant (p : ModelParameters) (obs : List PatientObservation)
    (h : ∀ o ∈ obs, 0 ≤ o.day) :
    ∀ o ∈ preLandmarkOf p obs, 0 ≤ o.day ∧ o.day ≤ p.landmark_time_days := by
  intro o ho
  have hm := mem_preLandmark_iff.mp ho
  exact ⟨h o hm.1, hm.2.1⟩

/-- C3 counterexample: with the fixture's positive residual variance
(σ² = 0.09), two qualifying observations taken on the same day (hence sharing
a standardized time) do NOT make the marginal covariance singular:
`V = Z·G·Zᵗ + σ²·I` is invertible and the exact-GLS prediction succeeds. -/
theorem duplicate_time_not_singular_counterexample :
    2 ≤ (preLandmarkOf fixtureParams fixtureObsDup).length ∧
    tStdOf fixtureParams (preLandmarkOf fixtureParams fixtureObsDup) ⟨0, by decide⟩ =
      tStdOf fixtureParams (preLandmarkOf fixtureParams fixtureObsDup) ⟨1, by decide⟩ ∧
    predictDynamicEASIX fixtureParams fixtureObsDup 1 ≠ .error .singularMatrix := by
  refine ⟨by decide, by decide, ?_⟩
  unfold predictDynamicEASIX
  rw [show predictCore fixtureParams fixtureObsDup 1 =
    .ok ⟨123/50, 801/1550, 35209/15500, 1/4⟩ from by decide]
  intro hc
  exact absurd hc (by simp [Except.map])

/-- C3 (amended): duplicate standardized times force a `SingularMatrix` failure
only when the residual variance is zero — then `V = Z·G·Zᵗ` has two equal
columns and the Gauss-Jordan inversion must reject it; with positive residual
variance `V` can be (and, at the fixture, is) invertible. -/
theorem duplicate_time_singular_of_zero_residual (p : ModelParameters)
    (obs : List PatientObservation) (dri : ℚ)
    (hs : p.residual_variance = 0)
    (hcfg : ¬ standardizationInvalid p)
    (hlen : ¬ (preLandmarkOf p obs).length < 2)
    (i j : Fin (preLandmarkOf p obs).length) (hij : i ≠ j)
    (ht : tStdOf p (preLandmarkOf p obs) i = tStdOf p (preLandmarkOf p obs) j) :
    predictDynamicEASIX p obs dri = .error .singularMatrix := by
  unfold predictDynamicEASIX
  rw [except_map_error_iff]
  simp only [predictCore]
  rw [if_neg hlen, if_neg hcfg, except_map_error_iff]
  apply matrixInverse_singular_of_dup_columns hij
  intro r
  have hZ : ∀ k, Zof p (preLandmarkOf p obs) i k = Zof p (preLandmarkOf p obs) j k := by
    intro k
    by_cases hk : k = 0
    · simp [Zof, hk]
    · simp [Zof, hk, ht]
  show matrixAdd _ _ r i = matrixAdd _ _ r j
  simp only [Vof, matrixAdd, scalarMultiply, hs, zero_mul, add_zero]
  simp only [matrixMultiply, transpose]
  exact Finset.sum_congr rfl (fun k _ => by rw [hZ k])

/-- Witness for C3 (amended): the fixture with residual variance zeroed and two
same-day observations fails with `SingularMatrix`. -/
theorem duplicate_time_singular_witness :
    fixtureParamsSigma0.residual_variance = 0 ∧
    ¬ standardizationInvalid fixtureParamsSigma0 ∧
    ¬ (preLandmarkOf fixtureParamsSigma0 fixtureObsDup).length < 2 ∧
    ((⟨0, by decide⟩ : Fin (preLandmarkOf fixtureParamsSigma0 fixtureObsDup).length) ≠
      ⟨1, by decide⟩) ∧
    tStdOf fixtureParamsSigma0 (preLandmarkOf fixtureParamsSigma0 fixtureObsDup)
        ⟨0, by decide⟩ =
      tStdOf fixtureParamsSigma0 (preLandmarkOf fixtureParamsSigma0 fixtureObsDup)
        ⟨1, by decide⟩ ∧
    predictDynamicEASIX fixtureParamsSigma0 fixtureObsDup 1 = .error .singularMatrix :=
  ⟨by decide, by decide, by decide, by decide, by decide,
    duplicate_time_singular_of_zero_residual fixtureParamsSigma0 fixtureObsDup 1
      (by decide) (by decide) (by decide) ⟨0, by decide⟩ ⟨1, by decide⟩
      (by decide) (by decide)⟩

/-- C5: for every baseline-hazard table with strictly increasing times and
non-decreasing hazards, the interpolation clamps to the first hazard at or
before the first table time, clamps to the last hazard at or after the last
table time, agrees with the linear interpolation of the two bracketing table
points on each segment (so it is piecewise linear, flat beyond the table), and
is a monotone non-decreasing, continuous function of the target time. -/
theorem interpolation_spec (pts : List (ℝ × ℝ))
    (hT : List.Chain' (fun a b : ℝ × ℝ => a.1 < b.1) pts)
    (hH : List.Chain' (fun a b : ℝ × ℝ => a.2 ≤ b.2) pts) :
    (∀ x rest t, pts = x :: rest → t ≤ x.1 →
        interpolateBaselineHazard pts t = x.2) ∧
    (∀ x rest t, pts = x :: rest → (lastPoint x rest).1 ≤ t →
        interpolateBaselineHazard pts t = (lastPoint x rest).2) ∧
    (∀ (i : ℕ) (hi : i + 1 < pts.length) (t : ℝ),
        (pts.get ⟨i, Nat.lt_of_succ_lt hi⟩).1 ≤ t → t ≤ (pts.get ⟨i + 1, hi⟩).1 →
        interpolateBaselineHazard pts t =
          (pts.get ⟨i, Nat.lt_of_succ_lt hi⟩).2 +
            ((pts.get ⟨i + 1, hi⟩).2 - (pts.get ⟨i, Nat.lt_of_succ_lt hi⟩).2) *
              (t - (pts.get ⟨i, Nat.lt_of_succ_lt hi⟩).1) /
              ((pts.get ⟨i + 1, hi⟩).1 - (pts.get ⟨i, Nat.lt_of_succ_lt hi⟩).1)) ∧
    Monotone (interpolateBaselineHazard pts) ∧
    Continuous (interpolateBaselineHazard pts) := by
  refine ⟨?_, ?_, ?_, interp_monotone pts hT hH, interp_continuous pts hT⟩
  · rintro x rest t rfl h
    exact interp_head_clamp x rest t h
  · rintro x rest t rfl h
    exact interp_last_clamp x rest t hT h
  · intro i hi t h1 h2
    exact interp_segment pts hT i hi t h1 h2

/-- Witness for C5 at a concrete two-point table. -/
theorem interpolation_spec_witness :
    List.Chain' (fun a b : ℝ × ℝ => a.1 < b.1) [(0, 0), (2, 1)] ∧
    List.Chain' (fun a b : ℝ × ℝ => a.2 ≤ b.2) [(0, 0), (2, 1)] ∧
    Monotone (interpolateBaselineHazard [((0:ℝ), (0:ℝ)), (2, 1)]) ∧
    Continuous (interpolateBaselineHazard [((0:ℝ), (0:ℝ)), (2, 1)]) := by
  have hT : List.Chain' (fun a b : ℝ × ℝ => a.1 < b.1) [(0, 0), (2, 1)] := by
    simp [List.chain'_cons]
  have hH : List.Chain' (fun a b : ℝ × ℝ => a.2 ≤ b.2) [(0, 0), (2, 1)] := by
    simp [List.chain'_cons]
  exact ⟨hT, hH, (interpolation_spec _ hT hH).2.2.2.1,
    (interpolation_spec _ hT hH).2.2.2.2⟩

/-- C4: for every valid baseline-hazard table (strictly increasing times,
non-negative cumulative hazards), whenever the prediction returns a result,
the survival probability equals `exp(-H0(horizon)·exp(linear_predictor))` with
`H0` the interpolated baseline cumulative hazard, the event rate equals
`(1 - survival)·100`, equivalently `survival = 1 - event_rate/100`, and the
event rate lies in `[0, 100]` (so the survival probability lies in `[0, 1]`). -/
theorem survival_outputs_spec (p : ModelParameters) (obs : List PatientObservation)
    (dri : ℚ) (r : PredictionResult)
    (hT : List.Chain' (fun a b : ℚ × ℚ => a.1 < b.1) p.baseline_hazard)
    (hpos : ∀ z ∈ p.baseline_hazard, 0 ≤ z.2)
    (h : predictDynamicEASIX p obs dri = .ok r) :
    r.survival_2yr =
      Real.exp (-((interpolateBaselineHazard p.baseline_hazard
          p.prediction_horizon_days : ℚ) : ℝ) *
        Real.exp ((r.linear_predictor : ℚ) : ℝ)) ∧
    r.event_rate_2yr_percent = (1 - r.survival_2yr) * 100 ∧
    r.survival_2yr = 1 - r.event_rate_2yr_percent / 100 ∧
    0 ≤ r.event_rate_2yr_percent ∧ r.event_rate_2yr_percent ≤ 100 := by
  obtain ⟨c, hc, hr⟩ := predict_ok_inv h
  obtain ⟨Vinv, hV, hcore⟩ := predictCore_ok_inv hc
  have hH0 : c.baselineH0 =
      interpolateBaselineHazard p.baseline_hazard p.prediction_horizon_days := by
    rw [hcore]; rfl
  have hsurv : r.survival_2yr =
      survivalProb ((c.baselineH0 : ℚ) : ℝ) ((c.linear_predictor : ℚ) : ℝ) := by
    rw [hr]; rfl
  have hlp : r.linear_predictor = c.linear_predictor := by rw [hr]; rfl
  have hrate : r.event_rate_2yr_percent = (1 - r.survival_2yr) * 100 := by
    rw [hr]; rfl
  have hH0nn : (0:ℝ) ≤ ((c.baselineH0 : ℚ) : ℝ) := by
    have hnn := interp_nonneg p.baseline_hazard hT hpos p.prediction_horizon_days
    rw [hH0]
    exact_mod_cast hnn
  have hs_pos : 0 < r.survival_2yr := by
    rw [hsurv]; exact Real.exp_pos _
  have hs_le1 : r.survival_2yr ≤ 1 := by
    rw [hsurv]
    unfold survivalProb
    apply Real.exp_le_one_iff.mpr
    have he := (Real.exp_pos ((c.linear_predictor : ℚ) : ℝ)).le
    nlinarith
  refine ⟨?_, hrate, by rw [hrate]; ring, by rw [hrate]; nlinarith,
    by rw [hrate]; nlinarith⟩
  rw [hsurv, hH0, hlp]
  rfl

/-- Witness for C4 on the worked-scenario fixture. -/
theorem survival_outputs_spec_witness :
    List.Chain' (fun a b : ℚ × ℚ => a.1 < b.1) fixtureParams.baseline_hazard ∧
    (∀ z ∈ fixtureParams.baseline_hazard, 0 ≤ z.2) ∧
    ((resultOf fixtureCore).survival_2yr =
      Real.exp (-((interpolateBaselineHazard fixtureParams.baseline_hazard
          fixtureParams.prediction_horizon_days : ℚ) : ℝ) *
        Real.exp (((resultOf fixtureCore).linear_predictor : ℚ) : ℝ)) ∧
    (resultOf fixtureCore).event_rate_2yr_percent =
      (1 - (resultOf fixtureCore).survival_2yr) * 100 ∧
    (resultOf fixtureCore).survival_2yr =
      1 - (resultOf fixtureCore).event_rate_2yr_percent / 100 ∧
    0 ≤ (resultOf fixtureCore).event_rate_2yr_percent ∧
    (resultOf fixtureCore).event_rate_2yr_percent ≤ 100) := by
  refine ⟨by norm_num [fixtureParams, List.chain'_cons], by decide,
    survival_outputs_spec fixtureParams fixtureObs 1 _
      (by norm_num [fixtureParams, List.chain'_cons]) (by decide) ?_⟩
  unfold predictDynamicEASIX
  rw [show predictCore fixtureParams fixtureObs 1 = .ok fixtureCore from by decide]
  rfl

/-- C10: the exact-GLS prediction is invariant under permutation of the
observation list: for every model parameters, risk indicator and permutation
of the observations, if the prediction succeeds on both lists it returns the
same `PredictionResult` (in the exact rational arithmetic of the embedding). -/
theorem permutation_invariance (p : ModelParameters)
    (obs obs' : List PatientObservation) (dri : ℚ) (r r' : PredictionResult)
    (hperm : obs.Perm obs')
    (h : predictDynamicEASIX p obs dri = .ok r)
    (h' : predictDynamicEASIX p obs' dri = .ok r') : r = r' := by
  obtain ⟨c, hc, hr⟩ := predict_ok_inv h
  obtain ⟨c', hc', hr'⟩ := predict_ok_inv h'
  set pre := preLandmarkOf p obs with hpre
  set pre' := preLandmarkOf p obs' with hpre'
  obtain ⟨Vinv, hV, hcore⟩ := predictCore_ok_inv hc
  obtain ⟨Vinv', hV', hcore'⟩ := predictCore_ok_inv hc'
  have hpermF : pre.Perm pre' := List.Perm.filter _ hperm
  obtain ⟨σ, hσ⟩ := perm_get_equiv hpermF
  have htStd : ∀ i, tStdOf p pre' i = tStdOf p pre (σ i) := by
    intro i
    simp only [tStdOf, hσ i]
  have hres : ∀ i, residOf p pre' dri i = residOf p pre dri (σ i) := by
    intro i
    simp only [residOf, tStdOf, hσ i]
  have hZ : ∀ i k, Zof p pre' i k = Zof p pre (σ i) k := by
    intro i k
    simp only [Zof, htStd i]
  have hVcomp : ∀ i j, Vof p pre' i j = Vof p pre (σ i) (σ j) := by
    intro i j
    simp only [Vof, matrixAdd, matrixMultiply, transpose, scalarMultiply, eye]
    congr 1
    · refine Finset.sum_congr rfl fun k _ => ?_
      rw [hZ j k]
      congr 1
      exact Finset.sum_congr rfl fun m _ => by rw [hZ i m]
    · congr 1
      simp [Equiv.apply_eq_iff_eq]
  have hL : matrixMultiply Vinv (Vof p pre) = eye pre.length :=
    matrixInverse_left_inverse hV
  have hL' : matrixMultiply Vinv' (Vof p pre') = eye pre'.length :=
    matrixInverse_left_inverse hV'
  have hC : matrixMultiply (fun i j => Vinv (σ i) (σ j)) (Vof p pre') =
      eye pre'.length := by
    funext i j
    show (∑ k, Vinv (σ i) (σ k) * Vof p pre' k j) = eye pre'.length i j
    calc (∑ k, Vinv (σ i) (σ k) * Vof p pre' k j)
        = ∑ k, Vinv (σ i) (σ k) * Vof p pre (σ k) (σ j) :=
          Finset.sum_congr rfl fun k _ => by rw [hVcomp k j]
    _ = ∑ k, Vinv (σ i) k * Vof p pre k (σ j) :=
          Equiv.sum_comp σ (fun k => Vinv (σ i) k * Vof p pre k (σ j))
    _ = matrixMultiply Vinv (Vof p pre) (σ i) (σ j) := rfl
    _ = eye pre.length (σ i) (σ j) := by rw [hL]
    _ = eye pre'.length i j := by
          simp only [eye, Equiv.apply_eq_iff_eq]
  have hVinvComp : Vinv' = fun i j => Vinv (σ i) (σ j) :=
    left_inverse_unique hL' hC
  have hbhat : bhatOf p pre' dri Vinv' = bhatOf p pre dri Vinv := by
    funext k
    simp only [bhatOf, matrixVectorMultiply, matrixMultiply, transpose, hVinvComp]
    calc (∑ j, (∑ i, (∑ m, Gof p k m * Zof p pre' i m) * Vinv (σ i) (σ j)) *
            residOf p pre' dri j)
        = ∑ j, (∑ i, (∑ m, Gof p k m * Zof p pre (σ i) m) * Vinv (σ i) (σ j)) *
            residOf p pre dri (σ j) := by
          refine Finset.sum_congr rfl fun j _ => ?_
          rw [hres j]
          congr 1
          refine Finset.sum_congr rfl fun i _ => ?_
          congr 1
          exact Finset.sum_congr rfl fun m _ => by rw [hZ i m]
    _ = ∑ j, (∑ i, (∑ m, Gof p k m * Zof p pre i m) * Vinv i (σ j)) *
            residOf p pre dri (σ j) := by
          refine Finset.sum_congr rfl fun j _ => ?_
          congr 1
          exact Equiv.sum_comp σ
            (fun i => (∑ m, Gof p k m * Zof p pre i m) * Vinv i (σ j))
    _ = ∑ j, (∑ i, (∑ m, Gof p k m * Zof p pre i m) * Vinv i j) *
            residOf p pre dri j :=
          Equiv.sum_comp σ
            (fun j => (∑ i, (∑ m, Gof p k m * Zof p pre i m) * Vinv i j) *
              residOf p pre dri j)
  have hcoreEq : c' = c := by
    rw [hcore', hcore]
    simp only [coreOf, hbhat]
  rw [hr, hr', hcoreEq]

/-- Witness for C10: the two fixture observations in both orders give the same
prediction. -/
theorem permutation_invariance_witness :
    fixtureObs.Perm [⟨90, some (7/5)⟩, ⟨60, some 1⟩] ∧
    (resultOf fixtureCore : PredictionResult) = resultOf fixtureCore :=
  ⟨List.Perm.swap (⟨90, some (7/5)⟩ : PatientObservation) ⟨60, some 1⟩ [],
    permutation_invariance fixtureParams fixtureObs
      [⟨90, some (7/5)⟩, ⟨60, some 1⟩] 1 (resultOf fixtureCore) (resultOf fixtureCore)
      (List.Perm.swap (⟨90, some (7/5)⟩ : PatientObservation) ⟨60, some 1⟩ [])
      (by unfold predictDynamicEASIX
          rw [show predictCore fixtureParams fixtureObs 1 = .ok fixtureCore from by decide]
          rfl)
      (by unfold predictDynamicEASIX
          rw [show predictCore fixtureParams [⟨90, some (7/5)⟩, ⟨60, some 1⟩] 1 =
            .ok fixtureCore from by decide]
          rfl)⟩

/-- Witness for C9 (amended) on the fixture observations. -/
theorem kept_day_invariant_witness :
    (∀ o ∈ fixtureObs, 0 ≤ o.day) ∧
      ∀ o ∈ preLandmarkOf fixtureParams fixtureObs,
        0 ≤ o.day ∧ o.day ≤ fixtureParams.landmark_time_days :=
  ⟨by decide, kept_day_invariant fixtureParams fixtureObs (by decide)⟩

end EasixDri
